import Mathlib

/-!
Verification of the halonctl core: the single-node SOAP call proxy, the
multi-node fan-out proxy over the generic thread-pool dispatcher
(`async_dispatch`), the natural-sort result orderer (`nodesort`), the
remote command session (`CommandProxy`), and the base64 helpers
(`to_base64` / `from_base64`).

Python strings are embedded as `List Nat` of Unicode code points; byte
strings as `List Nat` of bytes (< 256).  Fallible Python code is embedded
with `Except`/`Option` results.
-/

namespace Halonctl

/-! ## Base64 (model of CPython `base64.b64encode` / `base64.b64decode`)

`b64decode` is called without `validate=True`, so characters outside the
alphabet are discarded before decoding; a leftover group of data
characters that is not a full quad (and not completed by `=` padding)
raises `binascii.Error`, which we model as `none`. -/

/-- The standard base64 alphabet: value `i < 64` to ASCII code. -/
def b64char (i : Nat) : Nat :=
  if i < 26 then 65 + i
  else if i < 52 then 97 + (i - 26)
  else if i < 62 then 48 + (i - 52)
  else if i = 62 then 43
  else 47

/-- Inverse alphabet lookup: ASCII code to base64 value, `none` when the
character is not in the alphabet (`=` included). -/
def b64decval (c : Nat) : Option Nat :=
  if 65 ≤ c ∧ c ≤ 90 then some (c - 65)
  else if 97 ≤ c ∧ c ≤ 122 then some (26 + (c - 97))
  else if 48 ≤ c ∧ c ≤ 57 then some (52 + (c - 48))
  else if c = 43 then some 62
  else if c = 47 then some 63
  else none

/-- `base64.b64encode`: bytes to base64 ASCII text, with `=` padding
(ASCII 61). -/
def b64encode : List Nat → List Nat
  | [] => []
  | [a] => [b64char (a / 4), b64char (a % 4 * 16), 61, 61]
  | [a, b] => [b64char (a / 4), b64char (a % 4 * 16 + b / 16), b64char (b % 16 * 4), 61]
  | a :: b :: c :: rest =>
    b64char (a / 4) :: b64char (a % 4 * 16 + b / 16) ::
    b64char (b % 16 * 4 + c / 64) :: b64char (c % 64) :: b64encode rest

/-- Decode a run of base64 characters already filtered to the alphabet
plus `=`: full quads of data characters, with a final quad optionally
padded by one or two `=`.  Anything else (in particular a leftover group
of 1–3 data characters, as in `b64decode(b"a")`) is a `binascii.Error`,
modelled as `none`.  A padding-completed quad is modelled as final: the
encoder only emits padding at the end, and nothing in the repository
decodes text with mid-stream padding. -/
def b64quads : List Nat → Option (List Nat)
  | [] => some []
  | c1 :: c2 :: c3 :: c4 :: rest =>
    match b64decval c1, b64decval c2 with
    | some a, some b =>
      if c3 = 61 then
        if c4 = 61 ∧ rest = [] then some [a * 4 + b / 16] else none
      else
        match b64decval c3 with
        | some c =>
          if c4 = 61 then
            if rest = [] then some [a * 4 + b / 16, b % 16 * 16 + c / 4] else none
          else
            match b64decval c4 with
            | some d =>
              (b64quads rest).map fun tl =>
                (a * 4 + b / 16) :: (b % 16 * 16 + c / 4) :: (c % 4 * 64 + d) :: tl
            | none => none
        | none => none
    | _, _ => none
  | _ => none

/-- Characters `b64decode` keeps: the alphabet and the `=` pad. -/
def isB64orPad (c : Nat) : Bool := (b64decval c).isSome || c == 61

/-- `base64.b64decode` (non-validating): discard foreign characters,
then decode quads; `none` models a raised `binascii.Error`. -/
def pyB64Decode (s : List Nat) : Option (List Nat) :=
  b64quads (s.filter isB64orPad)

/-! ## UTF-8 (model of CPython `str.encode('utf8', 'replace')` and
`bytes.decode('utf-8', 'replace')`)

Encoding replaces unencodable code points (lone surrogates) with `?`
(ASCII 63).  Decoding is total: invalid bytes become U+FFFD (65533);
the replacement policy is modelled as one replacement character per
rejected lead byte. -/

/-- Encode one code point to UTF-8 bytes; lone surrogates become `?`
under the `replace` error handler. -/
def utf8EncodeChar (n : Nat) : List Nat :=
  if n < 128 then [n]
  else if n < 2048 then [192 + n / 64, 128 + n % 64]
  else if n < 65536 then
    if 55296 ≤ n ∧ n ≤ 57343 then [63]
    else [224 + n / 4096, 128 + n / 64 % 64, 128 + n % 64]
  else [240 + n / 262144, 128 + n / 4096 % 64, 128 + n / 64 % 64, 128 + n % 64]

/-- `str.encode('utf8', 'replace')` over a string of code points. -/
def utf8Encode : List Nat → List Nat
  | [] => []
  | c :: t => utf8EncodeChar c ++ utf8Encode t

/-- UTF-8 continuation byte. -/
def isCont (b : Nat) : Bool := 128 ≤ b && b < 192

/-- Admissible first continuation byte after a 3-byte lead (rejects
overlong `E0 80-9F` and surrogate `ED A0-BF` forms). -/
def cont3 (b b1 : Nat) : Bool :=
  if b = 224 then 160 ≤ b1 && b1 < 192
  else if b = 237 then 128 ≤ b1 && b1 < 160
  else isCont b1

/-- Admissible first continuation byte after a 4-byte lead (rejects
overlong `F0 80-8F` and out-of-range `F4 90-BF` forms). -/
def cont4 (b b1 : Nat) : Bool :=
  if b = 240 then 144 ≤ b1 && b1 < 192
  else if b = 244 then 128 ≤ b1 && b1 < 144
  else isCont b1

/-- `bytes.decode('utf-8', 'replace')`, fuel-indexed: each step decodes
one character (consuming 1–4 bytes and one unit of fuel), so any fuel of
at least the byte count is enough; invalid sequences yield U+FFFD. -/
def utf8DecodeReplaceAux : Nat → List Nat → List Nat
  | 0, _ => []
  | _ + 1, [] => []
  | f + 1, b :: rest =>
    if b < 128 then b :: utf8DecodeReplaceAux f rest
    else if 194 ≤ b && b < 224 then
      match rest with
      | b1 :: rest2 =>
        if isCont b1 then ((b - 192) * 64 + (b1 - 128)) :: utf8DecodeReplaceAux f rest2
        else 65533 :: utf8DecodeReplaceAux f (b1 :: rest2)
      | [] => [65533]
    else if 224 ≤ b && b < 240 then
      match rest with
      | b1 :: b2 :: rest3 =>
        if cont3 b b1 && isCont b2 then
          ((b - 224) * 4096 + (b1 - 128) * 64 + (b2 - 128)) :: utf8DecodeReplaceAux f rest3
        else 65533 :: utf8DecodeReplaceAux f (b1 :: b2 :: rest3)
      | rest' => 65533 :: utf8DecodeReplaceAux f rest'
    else if 240 ≤ b && b ≤ 244 then
      match rest with
      | b1 :: b2 :: b3 :: rest4 =>
        if cont4 b b1 && isCont b2 && isCont b3 then
          ((b - 240) * 262144 + (b1 - 128) * 4096 + (b2 - 128) * 64 + (b3 - 128)) ::
            utf8DecodeReplaceAux f rest4
        else 65533 :: utf8DecodeReplaceAux f (b1 :: b2 :: b3 :: rest4)
      | rest' => 65533 :: utf8DecodeReplaceAux f rest'
    else 65533 :: utf8DecodeReplaceAux f rest

/-- `bytes.decode('utf-8', 'replace')`: total decoder.  A step consumes
at least one byte, so `l.length` fuel always suffices. -/
def utf8DecodeReplace (l : List Nat) : List Nat :=
  utf8DecodeReplaceAux l.length l

/-- A code point a Python `str` element can carry that UTF-8 encodes
losslessly: a Unicode scalar value (not a lone surrogate). -/
def ValidScalar (c : Nat) : Prop := c < 1114112 ∧ ¬(55296 ≤ c ∧ c ≤ 57343)

instance (c : Nat) : Decidable (ValidScalar c) := by
  unfold ValidScalar; infer_instance

/-! ## `halonctl.util.to_base64` / `from_base64`

Source: `src/halonctl/util.py` lines 91–105.  Both take a Python
string-or-`None`; `None` and the empty string are falsy.  `from_base64`
can raise `binascii.Error` out of `b64decode`, modelled as `.error ()`. -/

/-- `util.to_base64`: `u"" if not s else b64encode(s.encode('utf8', 'replace')).decode('utf-8', 'replace')`.
(The final decode is the identity here since base64 text is ASCII.) -/
def to_base64 (s : Option (List Nat)) : List Nat :=
  match s with
  | none => []
  | some l => if l.isEmpty then [] else utf8DecodeReplace (b64encode (utf8Encode l))

/-- `util.from_base64`: `u"" if not s else b64decode(s.encode('utf8', 'replace')).decode('utf-8', 'replace')`;
a `binascii.Error` raised by `b64decode` propagates (`.error ()`). -/
def from_base64 (s : Option (List Nat)) : Except Unit (List Nat) :=
  match s with
  | none => .ok []
  | some l =>
    if l.isEmpty then .ok []
    else
      match pyB64Decode (utf8Encode l) with
      | none => .error ()
      | some bytes => .ok (utf8DecodeReplace bytes)

/-! ## Single-node SOAP call proxy

Source: `src/halonctl/proxies.py` lines 29–42 (`NodeSoapProxy.__getattr__`).
The executor posts the request and catches exactly
`(requests.exceptions.ConnectionError, requests.exceptions.Timeout)`,
returning `(0, None)`.  The `requests` exception classes are embedded with
their instance-of structure: `SSLError` and `ConnectTimeout` are
subclasses of `ConnectionError`, `ConnectTimeout` and `ReadTimeout` of
`Timeout`; `otherError` stands for a `RequestException` outside both. -/

/-- A `requests` exception class, as raised by `requests.post`. -/
inductive ReqException where
  | connectionError
  | sslError
  | connectTimeout
  | readTimeout
  | otherError
deriving DecidableEq

/-- `isinstance(e, requests.exceptions.ConnectionError)`. -/
def isConnectionErrorInst : ReqException → Bool
  | .connectionError => true
  | .sslError => true
  | .connectTimeout => true
  | _ => false

/-- `isinstance(e, requests.exceptions.Timeout)`. -/
def isTimeoutInst : ReqException → Bool
  | .connectTimeout => true
  | .readTimeout => true
  | _ => false

/-- The four transport-level failure kinds named by the spec. -/
inductive TransportFailure where
  | connRefused
  | timeout
  | dnsFailure
  | tlsFailure
deriving DecidableEq

/-- The `requests` exception each transport failure raises: connection
refused and DNS failures raise `ConnectionError`, TLS verification
failures raise `SSLError`, timeouts raise a `Timeout` subclass. -/
def raisedBy : TransportFailure → ReqException
  | .connRefused => .connectionError
  | .dnsFailure => .connectionError
  | .tlsFailure => .sslError
  | .timeout => .readTimeout

/-- Outcome of the `requests.post` round trip: a response
(body, status code, reason) or a raised exception. -/
inductive TransportOutcome where
  | response (body : List Nat) (status : Nat) (reason : List Nat)
  | raised (e : ReqException)

/-- The universal Call Result currency: `(status, payload)`. -/
abbrev CallResult (β : Type) := Nat × Option β

namespace NodeSoapProxy

/-- `NodeSoapProxy.__getattr__`'s executor: perform the round trip,
process the reply on success, and normalize `ConnectionError`/`Timeout`
(and their subclasses) to `(0, None)`; any other exception escapes.
`processReply` embeds the external `context.process_reply`. -/
def call {β : Type} (processReply : List Nat → Nat → List Nat → CallResult β)
    (o : TransportOutcome) : Except ReqException (CallResult β) :=
  match o with
  | .response body status reason => .ok (processReply body status reason)
  | .raised e =>
    if isConnectionErrorInst e || isTimeoutInst e then .ok (0, none)
    else .error e

end NodeSoapProxy

/-- A per-node call outcome in which the transport either answered or
failed with one of the four transport-failure kinds (no foreign
exception), as assumed by the fan-out claims. -/
def outcomeOf : (List Nat × Nat × List Nat) ⊕ TransportFailure → TransportOutcome
  | .inl (body, status, reason) => .response body status reason
  | .inr f => .raised (raisedBy f)

/-! ## Generic concurrent dispatcher

Source: `src/halonctl/util.py` lines 16–32 (`async_dispatch`).  All tasks
are submitted, `wait` joins all of them, and the result mapping is built
by calling `future.result()` on every future — a future whose task raised
re-raises there and the exception propagates out of `async_dispatch`.
A task is embedded by its outcome: `.ok v` for a normal return, `.error e`
for a raised exception.  (The set iteration order of `done` is arbitrary
in Python; the model uses submission order, which only fixes *which* of
several raised exceptions propagates.) -/

def async_dispatch {κ ε ρ : Type} : List (κ × Except ε ρ) → Except ε (List (κ × ρ))
  | [] => .ok []
  | (_, .error e) :: _ => .error e
  | (k, .ok v) :: rest => (async_dispatch rest).map ((k, v) :: ·)

/-! ## Result orderer

Source: `src/halonctl/util.py` lines 34–37 (`nodesort`), which is
`natsorted(list(nodes.items()), key=lambda t: [t[0].cluster.name, t[0].name])`.
`natsorted` (default options) splits each string into alternating
non-digit runs and digit runs, converts digit runs to their numeric
value, prepends an empty string chunk when the string starts with a
digit, and sorts lexicographically by the resulting tuples — with
Python's stable `sorted`, embedded here as stable insertion sort.
Chunks are coded into `List ℕ` so that list lexicographic order gives:
string chunks compare by code point, number chunks by value. -/

structure Cluster where
  name : List Char
deriving DecidableEq, Repr

structure Node where
  name : List Char
  cluster : Cluster
deriving DecidableEq, Repr

/-- One chunk of a natural-sort key: a run of non-digits, or the value
of a run of digits. -/
inductive NatChunk where
  | str (s : List Char)
  | num (n : Nat)
deriving DecidableEq, Repr

/-- Numeric value of a digit run (natsort's `int` conversion). -/
def digitsVal (l : List Char) : Nat :=
  l.foldl (fun a c => a * 10 + (c.toNat - 48)) 0

/-- Split a string into its maximal runs of digits / non-digits. -/
def charRuns : List Char → List (List Char)
  | [] => []
  | c :: cs =>
    match charRuns cs with
    | [] => [[c]]
    | run :: rest =>
      match run with
      | [] => [c] :: rest
      | d :: _ =>
        if c.isDigit = d.isDigit then (c :: run) :: rest
        else [c] :: run :: rest

/-- Split a string into alternating non-digit / digit-run chunks
(digit runs carry their numeric value). -/
def chunkify (l : List Char) : List NatChunk :=
  (charRuns l).map fun run =>
    match run with
    | c :: _ => if c.isDigit then NatChunk.num (digitsVal run) else NatChunk.str run
    | [] => NatChunk.str []

/-- natsort's per-string key: the chunk list, normalized to start with a
(string) chunk by prepending `''` when the string starts with a digit. -/
def natKey (s : List Char) : List NatChunk :=
  match chunkify s with
  | NatChunk.num n :: rest => NatChunk.str [] :: NatChunk.num n :: rest
  | l => l

/-- Code a chunk into `List ℕ` so list order realizes natsort's chunk
order: number chunks by value, string chunks by code points (a number
chunk sorts below a string chunk, which never decides a comparison of
two normalized keys at equal positions). -/
def chunkCode : NatChunk → List Nat
  | .num n => [0, n]
  | .str s => 1 :: s.map Char.toNat

/-- Coded natural-sort key of one string. -/
def natCode (s : List Char) : List (List Nat) :=
  (natKey s).map chunkCode

/-- The sort key `[t[0].cluster.name, t[0].name]` of one `(node, result)`
entry, coded. -/
def nodesortKey (n : Node) : List (List (List Nat)) :=
  [natCode n.cluster.name, natCode n.name]

/-- The ordering `nodesort` sorts by. -/
def nodesortLE {ρ : Type} (a b : Node × ρ) : Prop :=
  nodesortKey a.1 ≤ nodesortKey b.1

instance {ρ : Type} : DecidableRel (@nodesortLE ρ) := fun a b => by
  unfold nodesortLE; infer_instance

/-- `util.nodesort`: stable sort of the `(node, result)` entries by
`[cluster.name, name]` under natural order. -/
def nodesort {ρ : Type} (m : List (Node × ρ)) : List (Node × ρ) :=
  List.insertionSort nodesortLE m

namespace NodeListSoapProxy

/-- `NodeListSoapProxy.__getattr__`'s executor:
`nodesort(async_dispatch({node: (getattr(node.service, name), args, kwargs) for node in self.nodelist}))`.
`svc n` embeds the outcome of node `n`'s single-node proxy call. -/
def call {ε β : Type} (nodelist : List Node)
    (svc : Node → Except ε (CallResult β)) :
    Except ε (List (Node × CallResult β)) :=
  (async_dispatch (nodelist.map fun n => (n, svc n))).map nodesort

end NodeListSoapProxy

/-! ## Remote command session

Source: `src/halonctl/proxies.py` lines 75–164 (`CommandProxy`).  The
remote side is embedded as a script: the list of `(status, value)`
responses the node's SOAP service returns to the session's RPCs, in the
order the session issues them.  An RPC issued past the end of the script
reaches a gone remote and yields the proxy's transport-failure result
`(0, None)` — status 0, embedded with an empty payload. -/

/-- A SOAP response value: `res` with an `.item` attribute holding
base64-encoded chunks, or a plain value without `.item`. -/
inductive SoapVal where
  | items (its : List (List Nat))
  | plain (v : List Nat)
deriving DecidableEq, Repr

/-- The remote's scripted responses. -/
structure Script where
  resps : List (Nat × SoapVal)

/-- Response to the `i`-th RPC the session issues. -/
def Script.get (sc : Script) (i : Nat) : Nat × SoapVal :=
  (sc.resps.drop i).headD (0, SoapVal.plain [])

/-- Session state: how many RPCs were issued, and the `done` flag. -/
structure Session where
  idx : Nat
  done : Bool
deriving DecidableEq, Repr

/-- A fresh session (`done = False` class attribute). -/
def Session.init : Session := ⟨0, false⟩

/-- Payload of a `read`: the joined decoded chunks when the response had
`.item`, the raw response value otherwise. -/
inductive ReadPayload where
  | text (bs : List Nat)
  | raw (v : List Nat)
deriving DecidableEq, Repr

/-- `''.join([b64decode(item) for item in res.item])`; a `binascii.Error`
from a malformed chunk propagates. -/
def decodeItems : List (List Nat) → Except Unit (List Nat)
  | [] => .ok []
  | it :: rest =>
    match pyB64Decode it with
    | none => .error ()
    | some bs => (decodeItems rest).map (bs ++ ·)

/-- The payload `read` builds from a response value. -/
def pollChunk : SoapVal → Except Unit ReadPayload
  | .items its => (decodeItems its).map ReadPayload.text
  | .plain v => .ok (ReadPayload.raw v)

/-- The chunk a well-formed response value decodes to (total version of
`pollChunk`, agreeing with it on well-formed values). -/
def specChunk : SoapVal → ReadPayload
  | .items its => .text (its.map (fun it => (pyB64Decode it).getD [])).flatten
  | .plain v => .raw v

namespace CommandProxy

/-- `CommandProxy.read`: issue `commandPoll`; a non-200 status sets
`done`; the returned payload decodes `res.item` when present (the decode
happens in the `return` expression, after the `done` update, so a decode
error leaves the state update in place). -/
def read (sc : Script) (s : Session) : Session × (Nat × Except Unit ReadPayload) :=
  let r := sc.get s.idx
  (⟨s.idx + 1, s.done || decide (r.1 ≠ 200)⟩, (r.1, pollChunk r.2))

/-- `CommandProxy.next`: one `read`; status 200 yields the chunk,
anything else sets `done` and raises `StopIteration` (`.ok none`). -/
def next (sc : Script) (s : Session) : Session × Except Unit (Option ReadPayload) :=
  let (s', code, pay) := read sc s
  if code = 200 then (s', pay.map some)
  else ({ s' with done := true }, .ok none)

/-- Iterating the session (`for chunk in cmd` / `all`): repeated `next`
until `StopIteration`.  The fuel argument only bounds the recursion; it
is chosen large enough in `readAll` that iteration always ends by a
non-200 poll first. -/
def readAllAux (sc : Script) (s : Session) : Nat → Session × Except Unit (List ReadPayload)
  | 0 => (s, .ok [])
  | fuel + 1 =>
    match next sc s with
    | (s', .error e) => (s', .error e)
    | (s', .ok none) => (s', .ok [])
    | (s', .ok (some v)) =>
      let (s'', r) := readAllAux sc s' fuel
      (s'', r.map (v :: ·))

/-- The full read sequence of the session: chunks yielded until the
first non-success poll.  Off-script polls return status 0, so
`sc.resps.length - s.idx + 1` steps always suffice. -/
def readAll (sc : Script) (s : Session) : Session × Except Unit (List ReadPayload) :=
  readAllAux sc s (sc.resps.length - s.idx + 1)

/-- `CommandProxy.write`: issue `commandPush` with the base64-encoded
data; a non-200 status sets `done`.  The last component records the
encoded data sent over the wire. -/
def write (sc : Script) (s : Session) (data : List Nat) :
    Session × (Nat × SoapVal) × List Nat :=
  let r := sc.get s.idx
  (⟨s.idx + 1, s.done || decide (r.1 ≠ 200)⟩, r, b64encode data)

end CommandProxy

/-! ## Signal resolution

Source: `src/halonctl/proxies.py` lines 138–155 (`CommandProxy.signal`):
`int(sigid)` if that does not raise `ValueError`, otherwise
`int(getattr(signal, sigid.upper()))` — an unknown attribute raises
`AttributeError` before any RPC is issued. -/

/-- The argument of `CommandProxy.signal`: a number or a name. -/
inductive SigArg where
  | int (n : Int)
  | str (s : String)
deriving DecidableEq

/-- Python whitespace stripped by `int(str)`. -/
def pyIntWS (c : Char) : Bool :=
  c = ' ' || c = '\t' || c = '\n' || c = '\x0d' || c = '\x0b' || c = '\x0c'

/-- An ASCII decimal digit (`str.isdigit` as far as `int()` accepts). -/
def pyIsDigit (c : Char) : Bool := 48 ≤ c.toNat && c.toNat ≤ 57

/-- The digit tail of a decimal literal: one or more digits, else
`ValueError` (`none`). -/
def pyIntDigits (ds : List Char) : Option Int :=
  if ds ≠ [] ∧ ds.all pyIsDigit then some (digitsVal ds) else none

/-- CPython `int(str)` on a decimal literal: optional surrounding
whitespace, optional sign, one or more digits; everything else raises
`ValueError` (`none`).  (Underscore digit grouping and non-ASCII digits
are not modelled.) -/
def pyIntOfChars (l : List Char) : Option Int :=
  match ((l.dropWhile pyIntWS).reverse.dropWhile pyIntWS).reverse with
  | c :: ds =>
    if c = '+' then pyIntDigits ds
    else if c = '-' then (pyIntDigits ds).map Int.neg
    else pyIntDigits (c :: ds)
  | [] => none

/-- `str.upper()` on one ASCII character. -/
def pyUpperChar (c : Char) : Char :=
  if 97 ≤ c.toNat ∧ c.toNat ≤ 122 then Char.ofNat (c.toNat - 32) else c

/-- `str.upper()` (ASCII; the signal-module attribute names are ASCII). -/
def pyUpper (s : String) : String := ⟨s.data.map pyUpperChar⟩

/-- The upper-case integer-valued attributes of CPython's `signal`
module on Linux, as reached by `int(getattr(signal, name))`: the POSIX
signal numbers, plus the module's other integer constants (`SIG_DFL`,
`SIG_IGN`, `NSIG`, the `pthread_sigmask` how-constants). -/
def signalModuleAttrs : List (String × Int) :=
  [("SIGHUP", 1), ("SIGINT", 2), ("SIGQUIT", 3), ("SIGILL", 4),
   ("SIGTRAP", 5), ("SIGABRT", 6), ("SIGIOT", 6), ("SIGBUS", 7),
   ("SIGFPE", 8), ("SIGKILL", 9), ("SIGUSR1", 10), ("SIGSEGV", 11),
   ("SIGUSR2", 12), ("SIGPIPE", 13), ("SIGALRM", 14), ("SIGTERM", 15),
   ("SIGSTKFLT", 16), ("SIGCHLD", 17), ("SIGCLD", 17), ("SIGCONT", 18),
   ("SIGSTOP", 19), ("SIGTSTP", 20), ("SIGTTIN", 21), ("SIGTTOU", 22),
   ("SIGURG", 23), ("SIGXCPU", 24), ("SIGXFSZ", 25), ("SIGVTALRM", 26),
   ("SIGPROF", 27), ("SIGWINCH", 28), ("SIGIO", 29), ("SIGPOLL", 29),
   ("SIGPWR", 30), ("SIGSYS", 31), ("SIGRTMIN", 34), ("SIGRTMAX", 64),
   ("SIG_DFL", 0), ("SIG_IGN", 1), ("SIG_BLOCK", 0), ("SIG_UNBLOCK", 1),
   ("SIG_SETMASK", 2), ("NSIG", 65),
   ("ITIMER_REAL", 0), ("ITIMER_VIRTUAL", 1), ("ITIMER_PROF", 2)]

/-- `getattr(signal, name)` followed by `int(...)`. -/
def signalAttr (name : String) : Option Int :=
  (signalModuleAttrs.find? (fun p => p.1 = name)).map Prod.snd

/-- Signal identifier resolution of `CommandProxy.signal`: `int(sigid)`,
falling back on `ValueError` to `int(getattr(signal, sigid.upper()))`;
an unknown attribute is an `AttributeError` (`.error ()`). -/
def resolveSignal : SigArg → Except Unit Int
  | .int n => .ok n
  | .str s =>
    match pyIntOfChars s.data with
    | some n => .ok n
    | none =>
      match signalAttr (pyUpper s) with
      | some v => .ok v
      | none => .error ()

namespace CommandProxy

/-- `CommandProxy.signal`: resolve the identifier (an unresolvable name
raises before any RPC), then issue `commandSignal`; non-200 sets `done`.
The last component records the signal number sent over the wire. -/
def signal (sc : Script) (s : Session) (arg : SigArg) :
    Except Unit (Session × (Nat × SoapVal) × Int) :=
  match resolveSignal arg with
  | .error e => .error e
  | .ok sig =>
    let r := sc.get s.idx
    .ok (⟨s.idx + 1, s.done || decide (r.1 ≠ 200)⟩, r, sig)

/-- `CommandProxy.stop`: set `done`, then issue `commandStop` and return
whatever the remote reports. -/
def stop (sc : Script) (s : Session) : Session × (Nat × SoapVal) :=
  (⟨s.idx + 1, true⟩, sc.get s.idx)

end CommandProxy

/-- One caller-issued session operation. -/
inductive SessionOp where
  | read
  | write (data : List Nat)
  | signal (arg : SigArg)
  | stop
deriving DecidableEq

/-- The session-state effect of one operation (a `signal` whose
resolution raises issues no RPC and leaves the state unchanged). -/
def stepOp (sc : Script) (s : Session) : SessionOp → Session
  | .read => (CommandProxy.read sc s).1
  | .write d => (CommandProxy.write sc s d).1
  | .signal a =>
    match CommandProxy.signal sc s a with
    | .error _ => s
    | .ok (s', _, _) => s'
  | .stop => (CommandProxy.stop sc s).1

/-- Run a sequence of caller-issued operations. -/
def runOps (sc : Script) : Session → List SessionOp → Session
  | s, [] => s
  | s, op :: rest => runOps sc (stepOp sc s op) rest

/-- The remote process dies for good: once some response reports a
non-success status, every later response does too (off-script responses
are status 0 and satisfy this automatically). -/
def Script.MonotoneDead (sc : Script) : Prop :=
  ∀ i j, i ≤ j → (sc.get i).1 ≠ 200 → (sc.get j).1 ≠ 200

/-- Every scripted response carries well-formed `.item` chunks (valid
base64), so no read raises a decode error. -/
def Script.WFItems (sc : Script) : Prop :=
  ∀ r ∈ sc.resps, ∃ its, r.2 = SoapVal.items its ∧ ∀ it ∈ its, (pyB64Decode it).isSome

/-- Number of consecutive success responses from position `i` on: the
number of chunks a read sequence started at `i` yields. -/
def Script.prefLen (sc : Script) (i : Nat) : Nat :=
  ((sc.resps.drop i).takeWhile fun r => r.1 == 200).length

/-! # Theorems -/

/-- Custom induction following `b64encode`'s three-at-a-time recursion. -/
theorem list3_induction {α : Type} (P : List α → Prop) (h0 : P [])
    (h1 : ∀ a, P [a]) (h2 : ∀ a b, P [a, b])
    (h3 : ∀ a b c l, P l → P (a :: b :: c :: l)) : ∀ l, P l
  | [] => h0
  | [a] => h1 a
  | [a, b] => h2 a b
  | a :: b :: c :: l => h3 a b c l (list3_induction P h0 h1 h2 h3 l)

theorem b64decval_b64char : ∀ x, x < 64 → b64decval (b64char x) = some x := by
  decide

theorem b64char_lt128 : ∀ x, x < 64 → b64char x < 128 := by decide

theorem b64char_ne_pad : ∀ x, x < 64 → b64char x ≠ 61 := by decide

theorem isB64orPad_b64char (x : Nat) (h : x < 64) : isB64orPad (b64char x) = true := by
  simp [isB64orPad, b64decval_b64char x h]

theorem b64encode_chars {bs : List Nat} (h : ∀ b ∈ bs, b < 256) :
    ∀ ch ∈ b64encode bs, ch < 128 ∧ isB64orPad ch = true := by
  induction bs using list3_induction with
  | h0 => simp [b64encode]
  | h1 a =>
    have ha : a < 256 := h a (by simp)
    simp only [b64encode, List.mem_cons, List.not_mem_nil, or_false]
    rintro ch (rfl | rfl | rfl | rfl) <;>
      first
        | exact ⟨b64char_lt128 _ (by omega), isB64orPad_b64char _ (by omega)⟩
        | exact ⟨by omega, by simp [isB64orPad]⟩
  | h2 a b =>
    have ha : a < 256 := h a (by simp)
    have hb : b < 256 := h b (by simp)
    simp only [b64encode, List.mem_cons, List.not_mem_nil, or_false]
    rintro ch (rfl | rfl | rfl | rfl) <;>
      first
        | exact ⟨b64char_lt128 _ (by omega), isB64orPad_b64char _ (by omega)⟩
        | exact ⟨by omega, by simp [isB64orPad]⟩
  | h3 a b c l ih =>
    have ha : a < 256 := h a (by simp)
    have hb : b < 256 := h b (by simp)
    have hc : c < 256 := h c (by simp)
    have hl : ∀ x ∈ l, x < 256 := fun x hx => h x (by simp [hx])
    simp only [b64encode, List.mem_cons]
    rintro ch (rfl | rfl | rfl | rfl | hch)
    · exact ⟨b64char_lt128 _ (by omega), isB64orPad_b64char _ (by omega)⟩
    · exact ⟨b64char_lt128 _ (by omega), isB64orPad_b64char _ (by omega)⟩
    · exact ⟨b64char_lt128 _ (by omega), isB64orPad_b64char _ (by omega)⟩
    · exact ⟨b64char_lt128 _ (by omega), isB64orPad_b64char _ (by omega)⟩
    · exact ih hl ch hch

theorem b64quads_b64encode {bs : List Nat} (h : ∀ b ∈ bs, b < 256) :
    b64quads (b64encode bs) = some bs := by
  induction bs using list3_induction with
  | h0 => rfl
  | h1 a =>
    have ha : a < 256 := h a (by simp)
    simp only [b64encode, b64quads,
      b64decval_b64char _ (show a / 4 < 64 by omega),
      b64decval_b64char _ (show a % 4 * 16 < 64 by omega)]
    simp only [and_self, if_true, Option.some.injEq, List.cons.injEq, and_true]
    omega
  | h2 a b =>
    have ha : a < 256 := h a (by simp)
    have hb : b < 256 := h b (by simp)
    simp only [b64encode, b64quads,
      b64decval_b64char _ (show a / 4 < 64 by omega),
      b64decval_b64char _ (show a % 4 * 16 + b / 16 < 64 by omega),
      b64decval_b64char _ (show b % 16 * 4 < 64 by omega)]
    rw [if_neg (b64char_ne_pad _ (by omega))]
    simp only [if_true, Option.some.injEq, List.cons.injEq, and_true]
    omega
  | h3 a b c l ih =>
    have ha : a < 256 := h a (by simp)
    have hb : b < 256 := h b (by simp)
    have hc : c < 256 := h c (by simp)
    have hl : ∀ x ∈ l, x < 256 := fun x hx => h x (by simp [hx])
    simp only [b64encode, b64quads,
      b64decval_b64char _ (show a / 4 < 64 by omega),
      b64decval_b64char _ (show a % 4 * 16 + b / 16 < 64 by omega),
      b64decval_b64char _ (show b % 16 * 4 + c / 64 < 64 by omega),
      b64decval_b64char _ (show c % 64 < 64 by omega)]
    rw [if_neg (b64char_ne_pad _ (by omega)), if_neg (b64char_ne_pad _ (by omega))]
    rw [ih hl]
    simp only [Option.map_some', Option.some.injEq, List.cons.injEq, and_true]
    omega

theorem pyB64Decode_b64encode {bs : List Nat} (h : ∀ b ∈ bs, b < 256) :
    pyB64Decode (b64encode bs) = some bs := by
  unfold pyB64Decode
  rw [List.filter_eq_self.mpr fun ch hch => (b64encode_chars h ch hch).2]
  exact b64quads_b64encode h

theorem utf8EncodeChar_lt256 {c : Nat} (h : c < 1114112) :
    ∀ b ∈ utf8EncodeChar c, b < 256 := by
  intro b hb
  unfold utf8EncodeChar at hb
  split_ifs at hb
  all_goals simp only [List.mem_cons, List.not_mem_nil, or_false] at hb
  all_goals rcases hb with rfl | rfl | rfl | rfl <;> omega

theorem utf8EncodeChar_ne_nil (c : Nat) : utf8EncodeChar c ≠ [] := by
  unfold utf8EncodeChar
  split_ifs <;> simp

theorem utf8Encode_lt256 {s : List Nat} (h : ∀ c ∈ s, c < 1114112) :
    ∀ b ∈ utf8Encode s, b < 256 := by
  induction s with
  | nil => simp [utf8Encode]
  | cons c t ih =>
    intro b hb
    simp only [utf8Encode, List.mem_append] at hb
    rcases hb with hb | hb
    · exact utf8EncodeChar_lt256 (h c (by simp)) b hb
    · exact ih (fun x hx => h x (by simp [hx])) b hb

theorem utf8Encode_ascii {s : List Nat} (h : ∀ c ∈ s, c < 128) :
    utf8Encode s = s := by
  induction s with
  | nil => rfl
  | cons c t ih =>
    have hc : utf8EncodeChar c = [c] := by
      unfold utf8EncodeChar
      rw [if_pos (h c (by simp))]
    simp only [utf8Encode, hc, List.cons_append, List.nil_append]
    rw [ih fun x hx => h x (by simp [hx])]

theorem utf8Encode_ne_nil {s : List Nat} (h : s ≠ []) : utf8Encode s ≠ [] := by
  cases s with
  | nil => exact absurd rfl h
  | cons c t =>
    simp only [utf8Encode]
    intro hc
    exact utf8EncodeChar_ne_nil c (List.append_eq_nil.mp hc).1

theorem utf8Aux_nil : ∀ f, utf8DecodeReplaceAux f [] = []
  | 0 => rfl
  | _ + 1 => rfl

theorem utf8Aux_ascii {l : List Nat} (h : ∀ b ∈ l, b < 128) :
    ∀ f, l.length ≤ f → utf8DecodeReplaceAux f l = l := by
  induction l with
  | nil => exact fun f _ => utf8Aux_nil f
  | cons b t ih =>
    intro f hf
    obtain ⟨f', rfl⟩ : ∃ f', f = f' + 1 := ⟨f - 1, by simp at hf; omega⟩
    simp only [utf8DecodeReplaceAux]
    rw [if_pos (h b (by simp))]
    rw [ih (fun x hx => h x (by simp [hx])) f' (by simp at hf; omega)]

theorem utf8DecodeReplace_ascii {l : List Nat} (h : ∀ b ∈ l, b < 128) :
    utf8DecodeReplace l = l :=
  utf8Aux_ascii h l.length le_rfl

theorem utf8Aux_encChar {n : Nat} (h : ValidScalar n) (f : Nat) (bs : List Nat) :
    utf8DecodeReplaceAux (f + 1) (utf8EncodeChar n ++ bs) =
      n :: utf8DecodeReplaceAux f bs := by
  obtain ⟨hlt, hsur⟩ := h
  have hs : n < 55296 ∨ 57343 < n := by
    by_contra hc
    push_neg at hc
    exact hsur ⟨hc.1, hc.2⟩
  unfold utf8EncodeChar
  split_ifs with h1 h2 h3
  · -- 1-byte
    simp only [List.cons_append, List.nil_append]
    simp only [utf8DecodeReplaceAux]
    rw [if_pos h1]
  · -- 2-byte
    simp only [List.cons_append, List.nil_append]
    simp only [utf8DecodeReplaceAux]
    rw [if_neg (by omega),
      if_pos (show (decide (194 ≤ 192 + n / 64) && decide (192 + n / 64 < 224)) = true by
        simp only [Bool.and_eq_true, decide_eq_true_eq]; omega),
      if_pos (show isCont (128 + n % 64) = true by
        simp only [isCont, Bool.and_eq_true, decide_eq_true_eq]; omega)]
    simp only [List.cons.injEq, and_true]
    omega
  · -- 3-byte
    simp only [List.cons_append, List.nil_append]
    simp only [utf8DecodeReplaceAux]
    rw [if_neg (by omega),
      if_neg (show ¬(decide (194 ≤ 224 + n / 4096) && decide (224 + n / 4096 < 224)) = true by
        simp only [Bool.and_eq_true, decide_eq_true_eq]; omega),
      if_pos (show (decide (224 ≤ 224 + n / 4096) && decide (224 + n / 4096 < 240)) = true by
        simp only [Bool.and_eq_true, decide_eq_true_eq]; omega),
      if_pos (show (cont3 (224 + n / 4096) (128 + n / 64 % 64) && isCont (128 + n % 64)) = true by
        simp only [cont3, isCont, Bool.and_eq_true, decide_eq_true_eq]
        split_ifs <;> simp only [Bool.and_eq_true, decide_eq_true_eq] <;> omega)]
    simp only [List.cons.injEq, and_true]
    omega
  · -- 4-byte
    simp only [List.cons_append, List.nil_append]
    simp only [utf8DecodeReplaceAux]
    rw [if_neg (by omega),
      if_neg (show ¬(decide (194 ≤ 240 + n / 262144) && decide (240 + n / 262144 < 224)) = true by
        simp only [Bool.and_eq_true, decide_eq_true_eq]; omega),
      if_neg (show ¬(decide (224 ≤ 240 + n / 262144) && decide (240 + n / 262144 < 240)) = true by
        simp only [Bool.and_eq_true, decide_eq_true_eq]; omega),
      if_pos (show (decide (240 ≤ 240 + n / 262144) && decide (240 + n / 262144 ≤ 244)) = true by
        simp only [Bool.and_eq_true, decide_eq_true_eq]; omega),
      if_pos (show (cont4 (240 + n / 262144) (128 + n / 4096 % 64) &&
          isCont (128 + n / 64 % 64) && isCont (128 + n % 64)) = true by
        simp only [cont4, isCont, Bool.and_eq_true, decide_eq_true_eq]
        split_ifs <;> simp only [Bool.and_eq_true, decide_eq_true_eq] <;> omega)]
    simp only [List.cons.injEq, and_true]
    omega

theorem utf8Encode_length_ge (s : List Nat) : s.length ≤ (utf8Encode s).length := by
  induction s with
  | nil => simp [utf8Encode]
  | cons c t ih =>
    have h1 : 1 ≤ (utf8EncodeChar c).length :=
      List.length_pos.mpr (utf8EncodeChar_ne_nil c)
    simp only [utf8Encode, List.length_append, List.length_cons]
    omega

theorem utf8Aux_roundtrip {s : List Nat} (h : ∀ c ∈ s, ValidScalar c) :
    ∀ f, s.length ≤ f → utf8DecodeReplaceAux f (utf8Encode s) = s := by
  induction s with
  | nil => exact fun f _ => utf8Aux_nil f
  | cons c t ih =>
    intro f hf
    obtain ⟨f', rfl⟩ : ∃ f', f = f' + 1 := ⟨f - 1, by simp at hf; omega⟩
    simp only [utf8Encode]
    rw [utf8Aux_encChar (h c (by simp))]
    rw [ih (fun x hx => h x (by simp [hx])) f' (by simp at hf; omega)]

theorem utf8_roundtrip {s : List Nat} (h : ∀ c ∈ s, ValidScalar c) :
    utf8DecodeReplace (utf8Encode s) = s :=
  utf8Aux_roundtrip h _ (utf8Encode_length_ge s)

theorem b64encode_ne_nil {bs : List Nat} (h : bs ≠ []) : b64encode bs ≠ [] := by
  match bs with
  | [] => exact absurd rfl h
  | [a] => simp [b64encode]
  | [a, b] => simp [b64encode]
  | a :: b :: c :: rest => simp [b64encode]

/-- Round trip of the `util` helpers on a non-`None` string of scalar
values. -/
theorem from_to_base64 {s : List Nat} (h : ∀ c ∈ s, ValidScalar c) :
    from_base64 (some (to_base64 (some s))) = .ok s := by
  cases hs : s.isEmpty with
  | true =>
    rw [List.isEmpty_iff] at hs
    subst hs
    rfl
  | false =>
    have hsne : s ≠ [] := by
      intro hnil
      rw [hnil] at hs
      simp at hs
    have hlt : ∀ c ∈ s, c < 1114112 := fun c hc => (h c hc).1
    have hbytes : ∀ b ∈ utf8Encode s, b < 256 := utf8Encode_lt256 hlt
    have hchars : ∀ ch ∈ b64encode (utf8Encode s), ch < 128 :=
      fun ch hch => (b64encode_chars hbytes ch hch).1
    have henc : to_base64 (some s) = b64encode (utf8Encode s) := by
      simp only [to_base64, hs, Bool.false_eq_true, if_false]
      exact utf8DecodeReplace_ascii hchars
    rw [henc]
    have hne : b64encode (utf8Encode s) ≠ [] :=
      b64encode_ne_nil (utf8Encode_ne_nil hsne)
    simp only [from_base64, List.isEmpty_iff]
    rw [if_neg hne]
    rw [utf8Encode_ascii hchars, pyB64Decode_b64encode hbytes]
    show Except.ok (utf8DecodeReplace (utf8Encode s)) = Except.ok s
    rw [utf8_roundtrip h]

/-- C3, counterexample: the claim says `from_base64` never throws, but
`from_base64("a")` raises `binascii.Error` (a single leftover base64
data character), modelled as `.error ()`. -/
theorem claim_C3_counterexample : from_base64 (some [97]) = .error () := rfl

/-- C3, amended: `decode(encode(b)) == b` for every string of Unicode
scalar values (the helpers operate on Python unicode strings, not raw
byte strings), including the empty string and non-ASCII strings;
`None`/absent and empty input encode and decode to the empty string;
`to_base64` is total, and `from_base64` never throws on those inputs —
but `from_base64` does throw on malformed base64 text such as `"a"`. -/
theorem claim_C3_amended :
    (∀ s : List Nat, (∀ c ∈ s, ValidScalar c) →
      from_base64 (some (to_base64 (some s))) = .ok s) ∧
    to_base64 none = [] ∧ from_base64 none = .ok [] ∧
    to_base64 (some []) = [] ∧ from_base64 (some []) = .ok [] :=
  ⟨fun _ h => from_to_base64 h, rfl, rfl, rfl, rfl⟩

/-- C3, witness: the round trip evaluated on the concrete string
`"hé中\u{1d11e}"` (1-, 2-, 3- and 4-byte UTF-8 characters). -/
theorem claim_C3_witness :
    from_base64 (some (to_base64 (some [104, 233, 20013, 119070]))) =
      .ok [104, 233, 20013, 119070] :=
  claim_C3_amended.1 [104, 233, 20013, 119070] (by decide)

/-- C1: for every transport-level failure kind (connection refused,
timeout, DNS failure, TLS failure), the single-node proxy call returns
`(0, None)`: the raised `requests` exception is an instance of the
caught classes, so no transport exception escapes, and the payload
accompanying status 0 is `None`. -/
theorem claim_C1 {β : Type} (processReply : List Nat → Nat → List Nat → CallResult β)
    (f : TransportFailure) :
    NodeSoapProxy.call processReply (TransportOutcome.raised (raisedBy f)) =
      .ok (0, none) := by
  cases f <;> rfl

/-- All-failure outcomes of `async_dispatch`: if some task raised, the
first raising future re-raises in the result comprehension and the
exception propagates out of `async_dispatch`. -/
theorem async_dispatch_error {κ ε ρ : Type} :
    ∀ tasks : List (κ × Except ε ρ), (∃ t ∈ tasks, ∃ e, t.2 = .error e) →
      ∃ k e, (k, Except.error e) ∈ tasks ∧ async_dispatch tasks = .error e := by
  intro tasks
  induction tasks with
  | nil => rintro ⟨t, ht, _⟩; exact absurd ht (List.not_mem_nil t)
  | cons p rest ih =>
    rintro ⟨t, ht, e, he⟩
    obtain ⟨k, task⟩ := p
    cases task with
    | error e0 =>
      exact ⟨k, e0, List.mem_cons_self _ _, rfl⟩
    | ok v =>
      rcases List.mem_cons.mp ht with rfl | htr
      · exact absurd he (by simp)
      · obtain ⟨k', e', hmem, heq⟩ := ih ⟨t, htr, e, he⟩
        refine ⟨k', e', List.mem_cons_of_mem _ hmem, ?_⟩
        show (async_dispatch rest).map ((k, v) :: ·) = .error e'
        rw [heq]
        rfl

/-- All-success outcome of `async_dispatch`: when every task returns
normally, the result is a complete mapping, key for key. -/
theorem async_dispatch_total {κ ε ρ : Type} :
    ∀ tasks : List (κ × Except ε ρ), (∀ t ∈ tasks, ∃ v, t.2 = .ok v) →
      ∃ l, async_dispatch tasks = .ok l ∧
        l.map Prod.fst = tasks.map Prod.fst ∧
        ∀ p ∈ tasks, ∀ v, p.2 = .ok v → (p.1, v) ∈ l := by
  intro tasks
  induction tasks with
  | nil => exact fun _ => ⟨[], rfl, rfl, by simp⟩
  | cons p rest ih =>
    intro h
    obtain ⟨k, task⟩ := p
    obtain ⟨v, hv⟩ := h (k, task) (List.mem_cons_self _ _)
    simp only at hv
    subst hv
    obtain ⟨l, hl, hmap, hmem⟩ := ih fun t ht => h t (List.mem_cons_of_mem _ ht)
    refine ⟨(k, v) :: l, ?_, ?_, ?_⟩
    · show (async_dispatch rest).map ((k, v) :: ·) = .ok ((k, v) :: l)
      rw [hl]
      rfl
    · simp [hmap]
    · rintro q hq w hw
      rcases List.mem_cons.mp hq with rfl | hqr
      · simp only at hw
        cases hw
        exact List.mem_cons_self _ _
      · exact List.mem_cons_of_mem _ (hmem q hqr w hw)

/-- C10: if any task in a batch raises, `async_dispatch` propagates that
exception to its caller and returns no mapping; it returns a (complete)
mapping exactly when every task returns normally. -/
theorem claim_C10 {κ ε ρ : Type} :
    (∀ tasks : List (κ × Except ε ρ),
      (∃ t ∈ tasks, ∃ e, t.2 = .error e) →
      ∃ k e, (k, Except.error e) ∈ tasks ∧ async_dispatch tasks = .error e) ∧
    (∀ tasks : List (κ × Except ε ρ),
      (∀ t ∈ tasks, ∃ v, t.2 = .ok v) →
      ∃ l, async_dispatch tasks = .ok l ∧
        l.map Prod.fst = tasks.map Prod.fst ∧
        ∀ p ∈ tasks, ∀ v, p.2 = .ok v → (p.1, v) ∈ l) :=
  ⟨fun tasks h => async_dispatch_error tasks h,
   fun tasks h => async_dispatch_total tasks h⟩

/-- C10, witness: a batch with one raising task propagates that
exception; an all-normal batch returns the complete mapping. -/
theorem claim_C10_witness :
    (∃ k e, ((k, Except.error e) ∈ ([(1, .ok 5), (2, .error 7)] : List (Nat × Except Nat Nat))) ∧
      async_dispatch [(1, .ok 5), (2, .error 7)] = .error e) ∧
    (∃ l, async_dispatch ([(1, .ok 5), (2, .ok 6)] : List (Nat × Except Nat Nat)) = .ok l ∧
      l.map Prod.fst = [1, 2] ∧
      ∀ p ∈ ([(1, .ok 5), (2, .ok 6)] : List (Nat × Except Nat Nat)),
        ∀ v, p.2 = .ok v → (p.1, v) ∈ l) :=
  ⟨claim_C10.1 _ ⟨(2, .error 7), List.mem_cons_of_mem _ (List.mem_cons_self _ _), 7, rfl⟩,
   claim_C10.2 _ (by
    rintro t ht
    rcases List.mem_cons.mp ht with rfl | ht2
    · exact ⟨5, rfl⟩
    · rcases List.mem_cons.mp ht2 with rfl | ht3
      · exact ⟨6, rfl⟩
      · exact absurd ht3 (List.not_mem_nil t))⟩

theorem nodesort_perm {ρ : Type} (m : List (Node × ρ)) : (nodesort m).Perm m :=
  List.perm_insertionSort _ m

theorem nodesort_sorted {ρ : Type} (m : List (Node × ρ)) :
    List.Sorted nodesortLE (nodesort m) := by
  haveI : IsTotal (Node × ρ) nodesortLE :=
    ⟨fun a b => le_total (nodesortKey a.1) (nodesortKey b.1)⟩
  haveI : IsTrans (Node × ρ) nodesortLE :=
    ⟨fun _ _ _ h1 h2 => le_trans h1 h2⟩
  exact List.sorted_insertionSort _ m

/-- C4: `nodesort` is a pure function of its input that returns the
entries reordered (a permutation — nothing added or dropped) and sorted
by the coded natural-sort key `[cluster.name, name]`; on the concrete
nodes `node1, node2, node10, node20` of one group the order is by
numeric value of the digit runs, not lexicographic. -/
theorem claim_C4 :
    (∀ (ρ : Type) (m : List (Node × ρ)),
      (nodesort m).Perm m ∧ List.Sorted nodesortLE (nodesort m)) ∧
    (nodesort [(⟨"node10".data, ⟨"g".data⟩⟩, (0 : Nat)),
               (⟨"node20".data, ⟨"g".data⟩⟩, 1),
               (⟨"node2".data, ⟨"g".data⟩⟩, 2),
               (⟨"node1".data, ⟨"g".data⟩⟩, 3)]).map (fun p => p.1.name) =
      ["node1".data, "node2".data, "node10".data, "node20".data] :=
  ⟨fun _ m => ⟨nodesort_perm m, nodesort_sorted m⟩, by decide⟩

/-- The single-node proxy never raises when the transport outcome is a
response or one of the four transport-failure kinds. -/
theorem call_outcomeOf_ok {β : Type} (pr : List Nat → Nat → List Nat → CallResult β)
    (o : (List Nat × Nat × List Nat) ⊕ TransportFailure) :
    ∃ r, NodeSoapProxy.call pr (outcomeOf o) = .ok r := by
  rcases o with ⟨body, status, reason⟩ | f
  · exact ⟨_, rfl⟩
  · cases f <;> exact ⟨_, rfl⟩

/-- C2: a fan-out call over N distinct nodes — each node's call either
answering or failing at transport level — returns a mapping with exactly
N entries, exactly one per input node, no entry dropped however many
calls failed. -/
theorem claim_C2 (nodes : List Node) (hnd : nodes.Nodup) {β : Type}
    (pr : List Nat → Nat → List Nat → CallResult β)
    (outcome : Node → (List Nat × Nat × List Nat) ⊕ TransportFailure) :
    ∃ l, NodeListSoapProxy.call nodes
        (fun n => NodeSoapProxy.call pr (outcomeOf (outcome n))) = .ok l ∧
      l.length = nodes.length ∧
      (l.map Prod.fst).Perm nodes ∧
      ∀ n ∈ nodes, (l.map Prod.fst).count n = 1 := by
  set svc := fun n => NodeSoapProxy.call pr (outcomeOf (outcome n)) with hsvc
  have htasks : ∀ t ∈ nodes.map (fun n => (n, svc n)), ∃ v, t.2 = .ok v := by
    rintro t ht
    obtain ⟨n, _, rfl⟩ := List.mem_map.mp ht
    exact call_outcomeOf_ok pr (outcome n)
  obtain ⟨l, hl, hmap, _⟩ := async_dispatch_total _ htasks
  refine ⟨nodesort l, ?_, ?_, ?_, ?_⟩
  · show (async_dispatch (nodes.map fun n => (n, svc n))).map nodesort = .ok (nodesort l)
    rw [hl]
    rfl
  · calc (nodesort l).length = l.length := (nodesort_perm l).length_eq
      _ = (l.map Prod.fst).length := (List.length_map _ _).symm
      _ = (nodes.map (fun n => (n, svc n)) |>.map Prod.fst).length := by rw [hmap]
      _ = nodes.length := by simp
  · have h1 : ((nodesort l).map Prod.fst).Perm (l.map Prod.fst) :=
      (nodesort_perm l).map Prod.fst
    have h2 : l.map Prod.fst = nodes := by
      rw [hmap]
      simp only [List.map_map]
      show List.map (fun n => n) nodes = nodes
      exact List.map_id nodes
    rw [h2] at h1
    exact h1
  · intro n hn
    have h1 : ((nodesort l).map Prod.fst).Perm (l.map Prod.fst) :=
      (nodesort_perm l).map Prod.fst
    have h2 : l.map Prod.fst = nodes := by
      rw [hmap]
      simp only [List.map_map]
      show List.map (fun n => n) nodes = nodes
      exact List.map_id nodes
    rw [h1.count_eq, h2]
    exact List.count_eq_one_of_mem hnd hn

/-- C2, witness: two distinct nodes, one answering and one with a
connection-refused transport failure — both entries present. -/
theorem claim_C2_witness :
    ∃ l, NodeListSoapProxy.call
        [⟨"a".data, ⟨"g".data⟩⟩, ⟨"b".data, ⟨"g".data⟩⟩]
        (fun n => NodeSoapProxy.call (fun _ st _ => (st, some ())) (outcomeOf
          (if n.name = "a".data then .inl ([], 200, []) else .inr .connRefused))) = .ok l ∧
      l.length = 2 ∧
      (l.map Prod.fst).Perm [⟨"a".data, ⟨"g".data⟩⟩, ⟨"b".data, ⟨"g".data⟩⟩] ∧
      ∀ n ∈ ([⟨"a".data, ⟨"g".data⟩⟩, ⟨"b".data, ⟨"g".data⟩⟩] : List Node),
        (l.map Prod.fst).count n = 1 :=
  claim_C2 _ (by decide) _ _

theorem Script.get_past {sc : Script} {j : Nat} (h : sc.resps.length ≤ j) :
    sc.get j = (0, SoapVal.plain []) := by
  unfold Script.get
  rw [List.drop_eq_nil_of_le h]
  rfl

theorem Script.monotone_of_step {sc : Script}
    (h : ∀ i, (sc.get i).1 ≠ 200 → (sc.get (i + 1)).1 ≠ 200) : sc.MonotoneDead := by
  intro i j hij hi
  induction j, hij using Nat.le_induction with
  | base => exact hi
  | succ n _ ihn => exact h n ihn

theorem decodeItems_ok {its : List (List Nat)} (h : ∀ it ∈ its, (pyB64Decode it).isSome) :
    decodeItems its = .ok ((its.map fun it => (pyB64Decode it).getD []).flatten) := by
  induction its with
  | nil => rfl
  | cons it rest ih =>
    obtain ⟨bs, hbs⟩ := Option.isSome_iff_exists.mp (h it (by simp))
    simp only [decodeItems, hbs]
    rw [ih fun x hx => h x (by simp [hx])]
    simp only [List.map_cons, List.flatten_cons, hbs, Option.getD_some]
    rfl

theorem pollChunk_ok {v : SoapVal} {its : List (List Nat)} (hv : v = SoapVal.items its)
    (h : ∀ it ∈ its, (pyB64Decode it).isSome) : pollChunk v = .ok (specChunk v) := by
  subst hv
  simp only [pollChunk, specChunk, decodeItems_ok h]
  rfl

theorem next_success {sc : Script} {i : Nat} {d : Bool} (h : (sc.get i).1 = 200) :
    CommandProxy.next sc ⟨i, d⟩ = (⟨i + 1, d⟩, (pollChunk (sc.get i).2).map some) := by
  unfold CommandProxy.next CommandProxy.read
  simp [h]

theorem next_failure {sc : Script} {i : Nat} {d : Bool} (h : (sc.get i).1 ≠ 200) :
    CommandProxy.next sc ⟨i, d⟩ = (⟨i + 1, true⟩, .ok none) := by
  unfold CommandProxy.next CommandProxy.read
  simp [h]

theorem readAllAux_run (sc : Script) (hwf : sc.WFItems) :
    ∀ fuel i d, sc.prefLen i < fuel →
      CommandProxy.readAllAux sc ⟨i, d⟩ fuel =
        (⟨i + sc.prefLen i + 1, true⟩,
         .ok (((sc.resps.drop i).takeWhile fun r => r.1 == 200).map fun r => specChunk r.2)) := by
  intro fuel
  induction fuel with
  | zero => intro i d h; omega
  | succ f ih =>
    intro i d h
    cases hdrop : sc.resps.drop i with
    | nil =>
      have hpref : sc.prefLen i = 0 := by simp [Script.prefLen, hdrop]
      have hget : (sc.get i).1 = 0 := by simp [Script.get, hdrop]
      simp only [CommandProxy.readAllAux]
      rw [next_failure (by simp [hget])]
      simp [hpref, hdrop]
    | cons r t =>
      have hget : sc.get i = r := by simp [Script.get, hdrop]
      have hdrop1 : sc.resps.drop (i + 1) = t := by
        have h2 := List.drop_drop 1 i sc.resps
        rw [hdrop] at h2
        simpa using h2.symm
      by_cases h200 : r.1 = 200
      · have hr : r ∈ sc.resps :=
          (List.drop_sublist i sc.resps).subset (hdrop ▸ List.mem_cons_self r t)
        obtain ⟨its, hits, hdec⟩ := hwf r hr
        have hpoll : pollChunk r.2 = .ok (specChunk r.2) := pollChunk_ok hits hdec
        have htake : (sc.resps.drop i).takeWhile (fun r => r.1 == 200) =
            r :: ((sc.resps.drop (i + 1)).takeWhile fun r => r.1 == 200) := by
          rw [hdrop, hdrop1]
          exact List.takeWhile_cons_of_pos (by simp [h200])
        have hpref : sc.prefLen i = sc.prefLen (i + 1) + 1 := by
          simp [Script.prefLen, htake]
        simp only [CommandProxy.readAllAux]
        rw [next_success (by rw [hget]; exact h200)]
        rw [hget, hpoll]
        show (let x := CommandProxy.readAllAux sc ⟨i + 1, d⟩ f
              (x.1, x.2.map (specChunk r.2 :: ·))) = _
        rw [ih (i + 1) d (by omega)]
        dsimp only
        rw [hdrop1]
        rw [List.takeWhile_cons_of_pos (by simp [h200])]
        simp only [List.map_cons, hpref]
        simp only [Prod.mk.injEq, Session.mk.injEq]
        refine ⟨⟨by omega, trivial⟩, ?_⟩
        rfl
      · have hpref : sc.prefLen i = 0 := by
          simp only [Script.prefLen, hdrop]
          rw [List.takeWhile_cons_of_neg (by simp [h200])]
          rfl
        simp only [CommandProxy.readAllAux]
        rw [next_failure (by rw [hget]; exact h200)]
        rw [hpref]
        rw [List.takeWhile_cons_of_neg (by simp [h200])]
        rfl

theorem readAll_run (sc : Script) (hwf : sc.WFItems) (i : Nat) (d : Bool) :
    CommandProxy.readAll sc ⟨i, d⟩ =
      (⟨i + sc.prefLen i + 1, true⟩,
       .ok (((sc.resps.drop i).takeWhile fun r => r.1 == 200).map fun r => specChunk r.2)) := by
  have hfuel : sc.prefLen i < sc.resps.length - i + 1 := by
    have h1 : sc.prefLen i ≤ (sc.resps.drop i).length :=
      (List.takeWhile_sublist _).length_le
    rw [List.length_drop] at h1
    omega
  show CommandProxy.readAllAux sc ⟨i, d⟩ (sc.resps.length - i + 1) = _
  exact readAllAux_run sc hwf _ i d hfuel

/-- The poll right after the yielded prefix reports a non-success
status (the response that terminated the read sequence). -/
theorem get_pref_fail (sc : Script) : ∀ n i, sc.prefLen i = n → (sc.get (i + n)).1 ≠ 200 := by
  intro n
  induction n with
  | zero =>
    intro i h
    cases hdrop : sc.resps.drop i with
    | nil =>
      have hget : sc.get i = (0, SoapVal.plain []) := by simp [Script.get, hdrop]
      rw [Nat.add_zero, hget]
      simp
    | cons r t =>
      have hget : sc.get i = r := by simp [Script.get, hdrop]
      by_cases h200 : r.1 = 200
      · exfalso
        rw [Script.prefLen, hdrop, List.takeWhile_cons_of_pos (by simp [h200])] at h
        simp at h
      · rw [Nat.add_zero, hget]
        exact h200
  | succ k ih =>
    intro i h
    cases hdrop : sc.resps.drop i with
    | nil =>
      rw [Script.prefLen, hdrop] at h
      simp at h
    | cons r t =>
      by_cases h200 : r.1 = 200
      · have hdrop1 : sc.resps.drop (i + 1) = t := by
          have h2 := List.drop_drop 1 i sc.resps
          rw [hdrop] at h2
          simpa using h2.symm
        have hk : sc.prefLen (i + 1) = k := by
          rw [Script.prefLen, hdrop, List.takeWhile_cons_of_pos (by simp [h200])] at h
          rw [Script.prefLen, hdrop1]
          simpa using h
        have := ih (i + 1) hk
        rwa [show i + 1 + k = i + (k + 1) by omega] at this
      · rw [Script.prefLen, hdrop, List.takeWhile_cons_of_neg (by simp [h200])] at h
        simp at h

/-- C5: for a well-formed script of a remote process that stays dead
once it reports a non-success status, the session's read sequence from
a fresh session yields exactly the chunks of the polls up to the first
non-success one (so it is empty when the first poll already fails),
terminates exactly there with `done` set, and a second full traversal
after termination yields no chunks. -/
theorem claim_C5 (sc : Script) (hwf : sc.WFItems) (hmono : sc.MonotoneDead) :
    ∃ chunks,
      CommandProxy.readAll sc Session.init = (⟨chunks.length + 1, true⟩, .ok chunks) ∧
      chunks = (sc.resps.takeWhile fun r => r.1 == 200).map (fun r => specChunk r.2) ∧
      ((sc.get 0).1 ≠ 200 → chunks = []) ∧
      (CommandProxy.readAll sc (CommandProxy.readAll sc Session.init).1).2 = .ok [] := by
  have h0 : CommandProxy.readAll sc Session.init =
      (⟨0 + sc.prefLen 0 + 1, true⟩,
       .ok (((sc.resps.drop 0).takeWhile fun r => r.1 == 200).map fun r => specChunk r.2)) :=
    readAll_run sc hwf 0 false
  rw [List.drop_zero] at h0
  refine ⟨(sc.resps.takeWhile fun r => r.1 == 200).map (fun r => specChunk r.2),
    ?_, rfl, ?_, ?_⟩
  · rw [h0]
    have hlen : ((sc.resps.takeWhile fun r => r.1 == 200).map fun r => specChunk r.2).length =
        sc.prefLen 0 := by
      rw [List.length_map, Script.prefLen, List.drop_zero]
    rw [hlen, Nat.zero_add]
  · intro hfail
    cases hres : sc.resps with
    | nil => rfl
    | cons r t =>
      have hget : sc.get 0 = r := by simp [Script.get, hres]
      rw [hget] at hfail
      rw [List.takeWhile_cons_of_neg (by simp [hfail])]
      rfl
  · rw [h0]
    have hfail1 : (sc.get (0 + sc.prefLen 0 + 1)).1 ≠ 200 := by
      have hP := get_pref_fail sc (sc.prefLen 0) 0 rfl
      exact hmono _ _ (by omega) hP
    have h1 := readAll_run sc hwf (0 + sc.prefLen 0 + 1) true
    rw [h1]
    have : ((sc.resps.drop (0 + sc.prefLen 0 + 1)).takeWhile fun r => r.1 == 200) = [] := by
      cases hdrop : sc.resps.drop (0 + sc.prefLen 0 + 1) with
      | nil => rfl
      | cons r t =>
        have hget : sc.get (0 + sc.prefLen 0 + 1) = r := by
          unfold Script.get
          rw [hdrop]
          rfl
        rw [hget] at hfail1
        exact List.takeWhile_cons_of_neg (by simp [hfail1])
    rw [this]
    rfl

/-- C5, witness: a script with one successful poll carrying the chunk
`"QQ=="` (decoding to `"A"`), then a status-500 poll, then dead. -/
theorem claim_C5_witness :
    ∃ chunks,
      CommandProxy.readAll ⟨[(200, .items [[81, 81, 61, 61]]), (500, .items [])]⟩
          Session.init = (⟨chunks.length + 1, true⟩, .ok chunks) ∧
      chunks = (([(200, .items [[81, 81, 61, 61]]), (500, .items [])] :
          List (Nat × SoapVal)).takeWhile fun r => r.1 == 200).map (fun r => specChunk r.2) ∧
      (((⟨[(200, .items [[81, 81, 61, 61]]), (500, .items [])]⟩ : Script).get 0).1 ≠ 200 →
        chunks = []) ∧
      (CommandProxy.readAll ⟨[(200, .items [[81, 81, 61, 61]]), (500, .items [])]⟩
        (CommandProxy.readAll ⟨[(200, .items [[81, 81, 61, 61]]), (500, .items [])]⟩
          Session.init).1).2 = .ok [] := by
  apply claim_C5
  · rintro r hr
    rcases List.mem_cons.mp hr with rfl | hr2
    · exact ⟨[[81, 81, 61, 61]], rfl, by decide⟩
    · rcases List.mem_cons.mp hr2 with rfl | hr3
      · exact ⟨[], rfl, by decide⟩
      · exact absurd hr3 (List.not_mem_nil r)
  · apply Script.monotone_of_step
    intro i hi
    match i, hi with
    | 0, hi => exact absurd rfl hi
    | 1, _ => decide
    | (k + 2), _ =>
      rw [Script.get_past (by simp)]
      decide

/-- C6, counterexample: the claim fails on the code as an unconditional
property.  With the scripted remote `[(500, …), (200, "A"-chunk)]`, the
first read sets `done := true`, yet the next read re-issues the poll RPC
and returns `(200, fresh data)` — the code never consults `done` in
`read`/`write`/`signal`. -/
theorem claim_C6_counterexample :
    (CommandProxy.read ⟨[(500, .plain []), (200, .items [[81, 81, 61, 61]])]⟩
        Session.init).1.done = true ∧
    (CommandProxy.read ⟨[(500, .plain []), (200, .items [[81, 81, 61, 61]])]⟩
        (CommandProxy.read ⟨[(500, .plain []), (200, .items [[81, 81, 61, 61]])]⟩
          Session.init).1).2 =
      (200, .ok (.text [65])) :=
  ⟨rfl, rfl⟩

/-- Along stop-free operation sequences, a set `done` flag witnesses an
already-consumed non-success response. -/
theorem runOps_fail_before (sc : Script) :
    ∀ ops : List SessionOp, SessionOp.stop ∉ ops →
      ∀ s : Session, (s.done = true → ∃ j < s.idx, (sc.get j).1 ≠ 200) →
        ((runOps sc s ops).done = true →
          ∃ j < (runOps sc s ops).idx, (sc.get j).1 ≠ 200) := by
  intro ops
  induction ops with
  | nil => exact fun _ s h => h
  | cons op rest ih =>
    intro hno s hs
    have hnop : op ≠ SessionOp.stop := fun h => hno (h ▸ List.mem_cons_self _ _)
    have hnorest : SessionOp.stop ∉ rest := fun h => hno (List.mem_cons_of_mem _ h)
    show (runOps sc (stepOp sc s op) rest).done = true → _
    apply ih hnorest
    cases op with
    | read =>
      intro hd
      simp only [stepOp, CommandProxy.read] at hd ⊢
      rcases Bool.or_eq_true_iff.mp hd with hd | hd
      · obtain ⟨j, hj, hf⟩ := hs hd
        exact ⟨j, by omega, hf⟩
      · exact ⟨s.idx, by omega, of_decide_eq_true hd⟩
    | write data =>
      intro hd
      simp only [stepOp, CommandProxy.write] at hd ⊢
      rcases Bool.or_eq_true_iff.mp hd with hd | hd
      · obtain ⟨j, hj, hf⟩ := hs hd
        exact ⟨j, by omega, hf⟩
      · exact ⟨s.idx, by omega, of_decide_eq_true hd⟩
    | signal a =>
      intro hd
      simp only [stepOp, CommandProxy.signal] at hd ⊢
      cases hres : resolveSignal a with
      | error e =>
        rw [hres] at hd
        simp only at hd ⊢
        obtain ⟨j, hj, hf⟩ := hs hd
        exact ⟨j, hj, hf⟩
      | ok sig =>
        rw [hres] at hd
        simp only at hd ⊢
        rcases Bool.or_eq_true_iff.mp hd with hd | hd
        · obtain ⟨j, hj, hf⟩ := hs hd
          exact ⟨j, by omega, hf⟩
        · exact ⟨s.idx, by omega, of_decide_eq_true hd⟩
    | stop => exact absurd rfl hnop

/-- C6, amended: once `done` is true, it was set by an observed
non-success response (along read/write/signal sequences; `stop` is the
separate tear-down path), and — provided the remote never reports
success after its first non-success — every subsequent read reports a
non-success status, i.e. termination rather than fresh process output.
Unconditionally (without the dead-remote assumption) the code re-issues
the RPC and returns whatever the remote reports. -/
theorem claim_C6_amended (sc : Script) (hmono : sc.MonotoneDead)
    (ops : List SessionOp) (hno : SessionOp.stop ∉ ops)
    (hdone : (runOps sc Session.init ops).done = true) :
    (CommandProxy.read sc (runOps sc Session.init ops)).2.1 ≠ 200 := by
  obtain ⟨j, hj, hfail⟩ :=
    runOps_fail_before sc ops hno Session.init (by intro h; simp [Session.init] at h) hdone
  exact hmono j _ (by omega) hfail

/-- C6, amended, witness: script `[(500, …)]`, one read — `done` is set
and the following read reports status 0 (dead remote), not fresh data. -/
theorem claim_C6_amended_witness :
    (CommandProxy.read ⟨[(500, SoapVal.plain [])]⟩
      (runOps ⟨[(500, SoapVal.plain [])]⟩ Session.init [SessionOp.read])).2.1 ≠ 200 := by
  apply claim_C6_amended
  · apply Script.monotone_of_step
    intro i _
    match i with
    | 0 => decide
    | (k + 1) =>
      rw [Script.get_past (by simp)]
      decide
  · decide
  · rfl

/-- C8: after `stop()` the session is `Terminated` (`done` is true)
whatever status the stop RPC reports, and `stop()` returns exactly what
the remote reported. -/
theorem claim_C8 (sc : Script) (s : Session) :
    (CommandProxy.stop sc s).1.done = true ∧
    (CommandProxy.stop sc s).2 = sc.get s.idx :=
  ⟨rfl, rfl⟩

/-- A single operation never resets a set `done` flag. -/
theorem stepOp_done_mono (sc : Script) (s : Session) (op : SessionOp)
    (h : s.done = true) : (stepOp sc s op).done = true := by
  cases op with
  | read => simp [stepOp, CommandProxy.read, h]
  | write data => simp [stepOp, CommandProxy.write, h]
  | signal a =>
    simp only [stepOp, CommandProxy.signal]
    cases hres : resolveSignal a with
    | error e => exact h
    | ok sig => simp [h]
  | stop => rfl

/-- C9: the `done` flag is monotonic — once true, no sequence of
read/write/signal/stop operations ever resets it. -/
theorem claim_C9 (sc : Script) (s : Session) (ops : List SessionOp)
    (h : s.done = true) : (runOps sc s ops).done = true := by
  induction ops generalizing s with
  | nil => exact h
  | cons op rest ih => exact ih (stepOp sc s op) (stepOp_done_mono sc s op h)

/-- C9, witness: a terminated session stays terminated across a
read, a write, a signal and a stop. -/
theorem claim_C9_witness :
    (runOps ⟨[(200, SoapVal.plain [])]⟩ ⟨0, true⟩
      [SessionOp.read, SessionOp.write [1], SessionOp.signal (.int 9),
       SessionOp.stop]).done = true :=
  claim_C9 ⟨[(200, SoapVal.plain [])]⟩ ⟨0, true⟩ _ rfl

theorem pyIsDigit_pyUpperChar {c : Char} (h : pyIsDigit c = true) : pyUpperChar c = c := by
  unfold pyIsDigit at h
  simp only [Bool.and_eq_true, decide_eq_true_eq] at h
  unfold pyUpperChar
  rw [if_neg (by omega)]

theorem no_digit_of_upper_sigterm {l : List Char}
    (h : l.map pyUpperChar = "SIGTERM".data) : ∀ c ∈ l, pyIsDigit c = false := by
  intro c hc
  by_contra hcd
  rw [Bool.not_eq_false] at hcd
  have h1 : pyUpperChar c ∈ "SIGTERM".data := h ▸ List.mem_map_of_mem _ hc
  rw [pyIsDigit_pyUpperChar hcd] at h1
  have h2 : c ∈ ['S', 'I', 'G', 'T', 'E', 'R', 'M'] := h1
  unfold pyIsDigit at hcd
  simp only [Bool.and_eq_true, decide_eq_true_eq] at hcd
  fin_cases h2 <;> revert hcd <;> decide

theorem pyIntOfChars_none_of_no_digit {l : List Char}
    (h : ∀ c ∈ l, pyIsDigit c = false) : pyIntOfChars l = none := by
  have hsub : ∀ c ∈ ((l.dropWhile pyIntWS).reverse.dropWhile pyIntWS).reverse,
      pyIsDigit c = false := by
    intro c hc
    apply h
    rw [List.mem_reverse] at hc
    have hc2 := (List.dropWhile_suffix pyIntWS).sublist.subset hc
    rw [List.mem_reverse] at hc2
    exact (List.dropWhile_suffix pyIntWS).sublist.subset hc2
  have hdigits : ∀ ds : List Char, (∀ c ∈ ds, pyIsDigit c = false) →
      pyIntDigits ds = none := by
    intro ds hds
    rcases ds with _ | ⟨c0, ds0⟩
    · rw [pyIntDigits, if_neg]
      rintro ⟨hne, _⟩
      exact hne rfl
    · rw [pyIntDigits, if_neg]
      rintro ⟨_, hall⟩
      rw [List.all_eq_true] at hall
      have hx := hall c0 (List.mem_cons_self _ _)
      rw [hds c0 (List.mem_cons_self _ _)] at hx
      exact Bool.false_ne_true hx
  unfold pyIntOfChars
  revert hsub
  generalize ((l.dropWhile pyIntWS).reverse.dropWhile pyIntWS).reverse = t
  intro hsub
  rcases t with _ | ⟨c, ds⟩
  · rfl
  · simp only
    by_cases hplus : c = '+'
    · rw [if_pos hplus]
      exact hdigits ds fun x hx => hsub x (List.mem_cons_of_mem _ hx)
    · rw [if_neg hplus]
      by_cases hminus : c = '-'
      · rw [if_pos hminus]
        rw [hdigits ds fun x hx => hsub x (List.mem_cons_of_mem _ hx)]
        rfl
      · rw [if_neg hminus]
        exact hdigits (c :: ds) hsub

theorem resolveSignal_sigterm {st : String} (h : pyUpper st = "SIGTERM") :
    resolveSignal (.str st) = .ok 15 := by
  have hdata : st.data.map pyUpperChar = "SIGTERM".data := by
    have h2 := congrArg String.data h
    simpa [pyUpper] using h2
  have hint : pyIntOfChars st.data = none :=
    pyIntOfChars_none_of_no_digit (no_digit_of_upper_sigterm hdata)
  simp only [resolveSignal]
  rw [hint, h]
  rfl

/-- C7: `signal(15)` and `signal(name)` for any name whose upper-case
form is `"SIGTERM"` send the identical signal number 15 over the wire
(an integer argument is used directly, a name is resolved
case-insensitively through the signal-module attribute table), and a
name that neither parses as an integer nor resolves to a module
attribute raises before any RPC is issued, rather than silently sending
signal 0. -/
theorem claim_C7 :
    (∀ (sc : Script) (s : Session),
      (CommandProxy.signal sc s (.int 15)).map (fun r => r.2.2) = .ok 15) ∧
    (∀ (sc : Script) (s : Session) (st : String), pyUpper st = "SIGTERM" →
      (CommandProxy.signal sc s (.str st)).map (fun r => r.2.2) = .ok 15) ∧
    (∀ (sc : Script) (s : Session) (st : String),
      pyIntOfChars st.data = none → signalAttr (pyUpper st) = none →
      CommandProxy.signal sc s (.str st) = .error ()) := by
  refine ⟨fun sc s => rfl, fun sc s st h => ?_, fun sc s st h1 h2 => ?_⟩
  · unfold CommandProxy.signal
    rw [resolveSignal_sigterm h]
    rfl
  · unfold CommandProxy.signal
    have hres : resolveSignal (.str st) = .error () := by
      simp only [resolveSignal]
      rw [h1, h2]
    rw [hres]

/-- C7, witness: `signal(15)`, `signal("sigterm")` and
`signal("SIGWIBBLE")` on a fresh session. -/
theorem claim_C7_witness :
    (CommandProxy.signal ⟨[]⟩ Session.init (.int 15)).map (fun r => r.2.2) = .ok 15 ∧
    (CommandProxy.signal ⟨[]⟩ Session.init (.str "sigterm")).map (fun r => r.2.2) = .ok 15 ∧
    CommandProxy.signal ⟨[]⟩ Session.init (.str "SIGWIBBLE") = .error () :=
  ⟨claim_C7.1 ⟨[]⟩ Session.init,
   claim_C7.2.1 ⟨[]⟩ Session.init "sigterm" (by decide),
   claim_C7.2.2 ⟨[]⟩ Session.init "SIGWIBBLE" (by decide) (by decide)⟩

end Halonctl
